import Mathlib

/-!
Verification of the `myagent` repository: a shallow embedding in Lean 4 of the
pure logic of its patch applier (`src/tools/apply_patch.rs`), agent loop
(`src/agent/ai.rs`), Feishu WebSocket event handling
(`src/transport/feishu/event.rs`), Feishu API token retry
(`src/transport/feishu/api.rs`) and LLM client authentication
(`src/ai/client.rs`), together with theorems settling the specification
claims about those components.

Conventions used throughout:
* Rust `String` / `&str` become Lean `String`; helpers that the Rust standard
  library provides (`trim`, `trim_end`, `char::is_whitespace`, `Path::join`,
  `str::contains`) are re-implemented here over `String.data` so that every
  definition reduces in the kernel.
* Byte vectors (`Vec<u8>`) become `List Nat`.
* `HashMap` values threaded through pure code become functions
  `Key → Option Value`, with insertion and removal by pointwise update
  (the map interface used by the source is only `entry/or_insert`, indexing,
  and `remove`).
* External library calls (serde_json parsing, the network) are passed in as
  explicit oracle parameters; everything the repository itself computes is
  translated from the source.
-/

namespace ApplyPatch

/-- List of Unicode code points with the `White_Space` property, the set used
by Rust's `char::is_whitespace` (and hence by `str::trim` / `str::trim_end`
in `apply_patch.rs`). -/
def whitespaceCodes : List Nat :=
  [0x09, 0x0A, 0x0B, 0x0C, 0x0D, 0x20, 0x85, 0xA0, 0x1680,
   0x2000, 0x2001, 0x2002, 0x2003, 0x2004, 0x2005, 0x2006, 0x2007,
   0x2008, 0x2009, 0x200A, 0x2028, 0x2029, 0x202F, 0x205F, 0x3000]

/-- Rust `char::is_whitespace`. -/
def rustIsWhitespace (c : Char) : Bool :=
  whitespaceCodes.contains c.toNat

/-- Rust `str::trim_end`: drop trailing whitespace. -/
def trim_end (s : String) : String :=
  ⟨(s.data.reverse.dropWhile rustIsWhitespace).reverse⟩

/-- Rust `str::trim`: drop leading and trailing whitespace. -/
def trim (s : String) : String :=
  ⟨((s.data.dropWhile rustIsWhitespace).reverse.dropWhile rustIsWhitespace).reverse⟩

/-- Unicode dash / hyphen code points folded to ASCII `-` by `normalise`
in `seek_sequence` (apply_patch.rs, level-4 comparator). -/
def dashCodes : List Nat := [0x2010, 0x2011, 0x2012, 0x2013, 0x2014, 0x2015, 0x2212]

/-- Fancy single-quote code points folded to an ASCII apostrophe. -/
def singleQuoteCodes : List Nat := [0x2018, 0x2019, 0x201A, 0x201B]

/-- Fancy double-quote code points folded to ASCII `"`. -/
def doubleQuoteCodes : List Nat := [0x201C, 0x201D, 0x201E, 0x201F]

/-- Non-breaking / unusual space code points folded to an ASCII space. -/
def spaceCodes : List Nat :=
  [0x00A0, 0x2002, 0x2003, 0x2004, 0x2005, 0x2006, 0x2007, 0x2008,
   0x2009, 0x200A, 0x202F, 0x205F, 0x3000]

/-- Character folding of the level-4 comparator of `seek_sequence`. -/
def normaliseChar (c : Char) : Char :=
  if dashCodes.contains c.toNat then '-'
  else if singleQuoteCodes.contains c.toNat then '\''
  else if doubleQuoteCodes.contains c.toNat then '"'
  else if spaceCodes.contains c.toNat then ' '
  else c

/-- The `normalise` helper inside `seek_sequence`: trim, then fold each
character. -/
def normalise (s : String) : String :=
  ⟨(trim s).data.map normaliseChar⟩

/-- Level-1 comparator: byte equality (`lines[i..i+len] == *pattern` compares
element-wise `String` equality). -/
def cmpExact (a b : String) : Bool := a == b

/-- Level-2 comparator: `trim_end` both sides. -/
def cmpTrimEnd (a b : String) : Bool := trim_end a == trim_end b

/-- Level-3 comparator: `trim` both sides. -/
def cmpTrim (a b : String) : Bool := trim a == trim b

/-- Level-4 comparator: `normalise` both sides. -/
def cmpNorm (a b : String) : Bool := normalise a == normalise b

/-- Whether every `pattern[j]` matches `lines[i + j]` under comparator `cmp`
(the body of each scanning loop in `seek_sequence`). -/
def matchesAt (cmp : String → String → Bool) (lines pattern : List String) (i : Nat) : Bool :=
  (List.range pattern.length).all fun j => cmp (lines.getD (i + j) "") (pattern.getD j "")

/-- Scan positions `i, i+1, …` (`fuel` many of them) for the first match under
`cmp`; models one `for i in search_start..=lines.len()-pattern.len()` loop of
`seek_sequence`. -/
def scanFrom (cmp : String → String → Bool) (lines pattern : List String) :
    Nat → Nat → Option Nat
  | _, 0 => none
  | i, fuel + 1 =>
    if matchesAt cmp lines pattern i then some i
    else scanFrom cmp lines pattern (i + 1) fuel

/-- Translation of `seek_sequence` (apply_patch.rs:322-408): find `pattern`
within `lines` at or after `start` (or at `len - pattern_len` when `eof`),
trying the four comparator levels in order, each level scanning the whole
window before the next is tried. -/
def seek_sequence (lines pattern : List String) (start : Nat) (eof : Bool) : Option Nat :=
  if pattern.isEmpty then some start
  else if lines.length < pattern.length then none
  else
    let search_start :=
      if eof && decide (pattern.length ≤ lines.length) then
        lines.length - pattern.length
      else start
    let fuel := (lines.length - pattern.length + 1) - search_start
    match scanFrom cmpExact lines pattern search_start fuel with
    | some i => some i
    | none =>
      match scanFrom cmpTrimEnd lines pattern search_start fuel with
      | some i => some i
      | none =>
        match scanFrom cmpTrim lines pattern search_start fuel with
        | some i => some i
        | none => scanFrom cmpNorm lines pattern search_start fuel

example : seek_sequence ["foo", "bar  ", "baz"] ["bar"] 0 false = some 1 := by decide

example : seek_sequence ["a", "b"] ["b"] 0 true = some 1 := by decide

example : seek_sequence ["a"] [] 0 true = some 0 := by decide

/-- One `@@` chunk of an `*** Update File:` hunk (struct `UpdateChunk`). -/
structure UpdateChunk where
  context : Option String
  old_lines : List String
  new_lines : List String
  is_end_of_file : Bool
deriving Repr, DecidableEq

/-- A parsed patch hunk (enum `PatchHunk`). -/
inductive PatchHunk where
  | addFile (path : String) (contents : String)
  | deleteFile (path : String)
  | updateFile (path : String) (move_to : Option String) (chunks : List UpdateChunk)
deriving Repr, DecidableEq

/-- Context narrowing at the head of the `compute_replacements` loop body:
when the chunk has a context line, seek it (single-line pattern, `eof=false`)
from the cursor and move the cursor one past it; a miss is the
`Failed to find context` bail. -/
def resolve_context (original_lines : List String) (line_index : Nat)
    (context : Option String) : Except String Nat :=
  match context with
  | none => .ok line_index
  | some ctx =>
    match seek_sequence original_lines [ctx] line_index false with
    | some idx => .ok (idx + 1)
    | none => .error ("Failed to find context '" ++ ctx ++ "'")

/-- Rust `original_lines.last().is_some_and(String::is_empty)`. -/
def lastIsEmpty (lines : List String) : Bool :=
  match lines.getLast? with
  | some l => l.isEmpty
  | none => false

/-- Search-and-record part of the `compute_replacements` loop body, after
context resolution (apply_patch.rs:249-285).  Returns the recorded
replacement `(start_index, old_len, new_lines)` together with the updated
cursor.  Mirrors: pure insertion for an empty `old_lines`; otherwise a
`seek_sequence` search, retried with a trailing empty line stripped from the
pattern (and from `new_lines` when it also ends empty); a final miss is the
`Failed to find expected lines` bail. -/
def chunk_search (original_lines : List String) (idx : Nat) (chunk : UpdateChunk) :
    Except String ((Nat × Nat × List String) × Nat) :=
  if chunk.old_lines.isEmpty then
    let insertion_idx :=
      if lastIsEmpty original_lines then original_lines.length - 1
      else original_lines.length
    .ok ((insertion_idx, 0, chunk.new_lines), idx)
  else
    match seek_sequence original_lines chunk.old_lines idx chunk.is_end_of_file with
    | some s => .ok ((s, chunk.old_lines.length, chunk.new_lines), s + chunk.old_lines.length)
    | none =>
      if chunk.old_lines.getLast? == some "" then
        let pat := chunk.old_lines.dropLast
        let new_slice :=
          if chunk.new_lines.getLast? == some "" then chunk.new_lines.dropLast
          else chunk.new_lines
        match seek_sequence original_lines pat idx chunk.is_end_of_file with
        | some s => .ok ((s, pat.length, new_slice), s + pat.length)
        | none => .error "Failed to find expected lines"
      else .error "Failed to find expected lines"

/-- One full iteration of the `compute_replacements` loop for a single chunk:
context narrowing, then search and record. -/
def chunk_step (original_lines : List String) (line_index : Nat) (chunk : UpdateChunk) :
    Except String ((Nat × Nat × List String) × Nat) :=
  match resolve_context original_lines line_index chunk.context with
  | .error e => .error e
  | .ok idx => chunk_search original_lines idx chunk

/-- Stable insertion of a replacement into a list sorted by start index
(an element is placed after existing entries with the same key). -/
def insertByStart (x : Nat × Nat × List String) :
    List (Nat × Nat × List String) → List (Nat × Nat × List String)
  | [] => [x]
  | y :: ys => if x.1 < y.1 then x :: y :: ys else y :: insertByStart x ys

/-- Stable sort by start index; models the final
`replacements.sort_by(|(a,_,_),(b,_,_)| a.cmp(b))` of `compute_replacements`
(Rust's `sort_by` is stable, and a stable insertion sort produces the same
ordering). -/
def sortByStart (l : List (Nat × Nat × List String)) : List (Nat × Nat × List String) :=
  l.foldl (fun acc x => insertByStart x acc) []

/-- Loop part of `compute_replacements`: fold `chunk_step` over the chunks,
accumulating recorded replacements in order. -/
def compute_loop (original_lines : List String) :
    Nat → List UpdateChunk → Except String (List (Nat × Nat × List String))
  | _, [] => .ok []
  | line_index, chunk :: rest =>
    match chunk_step original_lines line_index chunk with
    | .error e => .error e
    | .ok (rep, idx) =>
      match compute_loop original_lines idx rest with
      | .error e => .error e
      | .ok reps => .ok (rep :: reps)

/-- Translation of `compute_replacements` (apply_patch.rs:222-290). -/
def compute_replacements (original_lines : List String) (chunks : List UpdateChunk) :
    Except String (List (Nat × Nat × List String)) :=
  match compute_loop original_lines 0 chunks with
  | .error e => .error e
  | .ok reps => .ok (sortByStart reps)

/-- Removal of `old_len` lines at `start_idx` (each `lines.remove(start_idx)`
guarded by `start_idx < lines.len()`); `List.eraseIdx` out of range is a
no-op, matching the guard. -/
def removeOld (lines : List String) (start_idx : Nat) : Nat → List String
  | 0 => lines
  | n + 1 => removeOld (lines.eraseIdx start_idx) start_idx n

/-- Insertion of the new segment at `start_idx` (consecutive
`lines.insert(start_idx + offset, …)`). -/
def insertSegment (lines : List String) (start_idx : Nat) (seg : List String) : List String :=
  (lines.take start_idx) ++ seg ++ (lines.drop start_idx)

/-- Translation of `apply_replacements` (apply_patch.rs:293-315): apply the
recorded replacements in reverse order so earlier indices are not shifted. -/
def apply_replacements (lines : List String) (replacements : List (Nat × Nat × List String)) :
    List String :=
  replacements.reverse.foldl
    (fun ls rep => insertSegment (removeOld ls rep.1 rep.2.1) rep.1 rep.2.2) lines

/-- Rust `Path::is_absolute` on Unix: the path starts with `/`. -/
def is_absolute (p : String) : Bool :=
  ['/'].isPrefixOf p.data

/-- Rust `Path::new(base).join(p)` rendered back to a string
(`to_string_lossy` is the identity on valid UTF-8): an absolute `p` replaces
the base; otherwise `p` is appended after a separator (none added when the
base is empty or already ends in `/`). -/
def path_join (base p : String) : String :=
  if is_absolute p then p
  else if base == "" then p
  else if ['/'].isPrefixOf base.data.reverse then base ++ p
  else base ++ "/" ++ p

/-- Translation of `resolve_path` (apply_patch.rs:410-416). -/
def resolve_path (work_dir path : String) : String :=
  if is_absolute path then path
  else path_join work_dir path

/-- In-memory file system: a map from full path to file contents.  Directory
creation (`create_dir_all`) has no observable effect in this model. -/
def Fs : Type := String → Option String

/-- Write (or overwrite) a file: `std::fs::write`. -/
def fsWrite (fs : Fs) (path contents : String) : Fs :=
  fun p => if p == path then some contents else fs p

/-- Remove a file: `std::fs::remove_file` (the success case). -/
def fsRemove (fs : Fs) (path : String) : Fs :=
  fun p => if p == path then none else fs p

/-- Rust `content.split('\n')` over the character list. -/
def splitNewlines : List Char → List String
  | [] => [""]
  | c :: rest =>
    if c = '\n' then "" :: splitNewlines rest
    else
      match splitNewlines rest with
      | [] => [⟨[c]⟩]
      | s :: ss => (⟨c :: s.data⟩ : String) :: ss

/-- Rust `Vec<String>::join("\n")`. -/
def joinNewlines : List String → String
  | [] => ""
  | [s] => s
  | s :: rest => s ++ "\n" ++ joinNewlines rest

/-- Update-file step of `apply_hunks` (apply_patch.rs:172-213): read, split on
`\n`, drop a trailing empty element, compute and apply replacements, restore
the trailing newline, then write (to the move destination when given, removing
the original). -/
def apply_update (fs : Fs) (work_dir path : String) (move_to : Option String)
    (chunks : List UpdateChunk) : Except String (Fs × String) :=
  let full := resolve_path work_dir path
  match fs full with
  | none => .error ("Failed to read " ++ path)
  | some content =>
    let file_lines := splitNewlines content.data
    let file_lines := if lastIsEmpty file_lines then file_lines.dropLast else file_lines
    match compute_replacements file_lines chunks with
    | .error e => .error e
    | .ok replacements =>
      let new_lines := apply_replacements file_lines replacements
      let new_lines := if lastIsEmpty new_lines then new_lines else new_lines ++ [""]
      let new_content := joinNewlines new_lines
      match move_to with
      | some dest =>
        let dest_full := resolve_path work_dir dest
        .ok (fsRemove (fsWrite fs dest_full new_content) full,
             "Moved " ++ path ++ " → " ++ dest)
      | none =>
        .ok (fsWrite fs full new_content,
             "Updated " ++ path ++ " (" ++ toString chunks.length ++ " chunks applied)")

/-- Translation of `apply_hunks` (apply_patch.rs:153-219) over the in-memory
file system; returns the final file system and the summary lines. -/
def apply_hunks (hunks : List PatchHunk) (work_dir : String) (fs : Fs) :
    Except String (Fs × List String) :=
  match hunks with
  | [] => .ok (fs, [])
  | hunk :: rest =>
    let step : Except String (Fs × String) :=
      match hunk with
      | .addFile path contents =>
        .ok (fsWrite fs (resolve_path work_dir path) contents, "Created " ++ path)
      | .deleteFile path =>
        let full := resolve_path work_dir path
        match fs full with
        | none => .error ("Failed to delete " ++ path)
        | some _ => .ok (fsRemove fs full, "Deleted " ++ path)
      | .updateFile path move_to chunks => apply_update fs work_dir path move_to chunks
    match step with
    | .error e => .error e
    | .ok (fs', line) =>
      match apply_hunks rest work_dir fs' with
      | .error e => .error e
      | .ok (fs'', lines) => .ok (fs'', line :: lines)

end ApplyPatch

/-- JSON values (`serde_json::Value`); numbers are modelled as integers, which
covers every number the translated code paths construct or inspect. -/
inductive Json where
  | null
  | bool (b : Bool)
  | num (n : Int)
  | str (s : String)
  | arr (xs : List Json)
  | obj (fields : List (String × Json))
deriving Repr

namespace Agent

/-- Content block of a message (protocol.rs `ContentBlock`). -/
inductive ContentBlock where
  | text (text : String)
  | toolUse (id name : String) (input : Json)
  | toolResult (tool_use_id : String) (content : String) (is_error : Option Bool)
deriving Repr

/-- A conversation message (protocol.rs `Message`). -/
structure Message where
  role : String
  content : List ContentBlock
deriving Repr

/-- Streaming events from the LLM client (ai/types.rs `StreamEvent`). -/
inductive StreamEvent where
  | contentBlockStart (index : Nat) (content_block : ContentBlock)
  | textDelta (index : Nat) (text : String)
  | inputJsonDelta (index : Nat) (partial_json : String)
  | contentBlockStop (index : Nat)
  | messageDelta (stop_reason : Option String)
  | messageStop
deriving Repr

/-- Constant `STOP_REASON_TOOL_USE` (ai/types.rs). -/
def STOP_REASON_TOOL_USE : String := "tool_use"

/-- Helper `tool_result_block` (protocol.rs:127-133): note `is_error` is
`Some(true)` on failure and omitted (`None`) on success. -/
def tool_result_block (tool_use_id output : String) (is_error : Bool) : ContentBlock :=
  .toolResult tool_use_id output (if is_error then some true else none)

/-- Helper `user_message_with_tool_results` (protocol.rs:120-125). -/
def user_message_with_tool_results (results : List ContentBlock) : Message :=
  ⟨"user", results⟩

/-- Mutable locals of the stream-draining part of one `ai_loop` iteration
(ai.rs:139-144). -/
structure LoopStreamState where
  assistant_content : List ContentBlock
  current_text : String
  current_tool_json : String
  current_tool_block : Option ContentBlock
  stop_reason : Option String
  block_index : Nat
deriving Repr

/-- Initial stream-draining state of an `ai_loop` iteration. -/
def initState : LoopStreamState :=
  ⟨[], "", "", none, none, 0⟩

/-- Push of accumulated text as a `Text` block, when non-empty (both
finalization sites in `ai_loop`). -/
def flush_text (st : LoopStreamState) : LoopStreamState :=
  if st.current_text.isEmpty then st
  else { st with assistant_content := st.assistant_content ++ [.text st.current_text],
                 current_text := "" }

/-- Rust `if let ContentBlock::ToolUse { ref mut input, .. } = block { *input =
serde_json::from_str(&json).unwrap_or(Object(Default::default())) }`: a failed
parse of the accumulated input JSON falls back to the empty object.  `parse`
is the `serde_json::from_str::<Value>` oracle. -/
def set_tool_input (parse : String → Option Json) (block : ContentBlock)
    (buffered : String) : ContentBlock :=
  match block with
  | .toolUse id name _ => .toolUse id name ((parse buffered).getD (Json.obj []))
  | other => other

/-- Push of a pending tool block with its parsed input (both finalization
sites in `ai_loop`); `bump` is true at the defensive `ContentBlockStart` site,
where `block_index += 1` happens inside the `if let`. -/
def flush_tool (parse : String → Option Json) (st : LoopStreamState) (bump : Bool) :
    LoopStreamState :=
  match st.current_tool_block with
  | none => st
  | some block =>
    { st with
      assistant_content :=
        st.assistant_content ++ [set_tool_input parse block st.current_tool_json],
      current_tool_block := none,
      current_tool_json := "",
      block_index := if bump then st.block_index + 1 else st.block_index }

/-- One step of the stream-draining `while let Some(event)` loop of `ai_loop`
(ai.rs:146-251); event emission on the EQ is not modelled. -/
def stream_step (parse : String → Option Json) (st : LoopStreamState)
    (ev : StreamEvent) : LoopStreamState :=
  match ev with
  | .contentBlockStart _ cb =>
    let st := flush_text st
    let st := flush_tool parse st true
    match cb with
    | .toolUse _ _ _ => { st with current_tool_block := some cb, current_tool_json := "" }
    | .text _ => { st with current_text := "" }
    | _ => st
  | .textDelta _ t => { st with current_text := st.current_text ++ t }
  | .inputJsonDelta _ pj => { st with current_tool_json := st.current_tool_json ++ pj }
  | .contentBlockStop _ =>
    let st := flush_text st
    let st := flush_tool parse st false
    { st with block_index := st.block_index + 1 }
  | .messageDelta sr => { st with stop_reason := sr }
  | .messageStop => st

/-- Drain of the event stream: fold `stream_step` until `MessageStop`
breaks the loop (or the stream ends). -/
def run_stream (parse : String → Option Json) :
    LoopStreamState → List StreamEvent → LoopStreamState
  | st, [] => st
  | st, ev :: rest =>
    match ev with
    | .messageStop => st
    | _ => run_stream parse (stream_step parse st ev) rest

/-- Collection of `(id, name, input)` from the `ToolUse` blocks of the
finalized assistant content (ai.rs:258-266); this is the dispatch list. -/
def tool_uses_of (content : List ContentBlock) : List (String × String × Json) :=
  content.filterMap fun b =>
    match b with
    | .toolUse id name input => some (id, name, input)
    | _ => none

/-- Outcome of one `ai_loop` iteration: the inner `loop` returns `Ok(())`
(`done`), goes around again after tool dispatch (`again`), or propagates an
error (`errored`). -/
inductive TurnOutcome where
  | done
  | again
  | errored (e : String)
deriving Repr, DecidableEq

/-- Result-collection loop over the joined executor tasks (ai.rs:301-333),
zipped with their tool uses.  The outer `Except` of each join result is the
`tokio::task::JoinError` (panic or cancellation), converted by
`join_result.map_err(.. "Task join error" ..)?` into an early return; the
inner one is the tool's own result, converted into a `ToolResult` block with
`is_error` set on failure. -/
def collect_tool_results :
    List ((String × String × Json) × Except String (Except String String)) →
    Except String (List ContentBlock)
  | [] => .ok []
  | (tu, jr) :: rest =>
    match jr with
    | .error e => .error ("Task join error: " ++ e)
    | .ok result =>
      let output := match result with
        | .ok out => out
        | .error e => "Error: " ++ e
      let is_error := match result with
        | .ok _ => false
        | .error _ => true
      match collect_tool_results rest with
      | .error e => .error e
      | .ok blocks => .ok (tool_result_block tu.1 output is_error :: blocks)

/-- One iteration of the inner `loop` of `ai_loop` (ai.rs:128-335): drain the
stream into an assistant message, append it, and — when the stop reason is
`tool_use` and tool uses exist — dispatch the tools and append the
tool-results user message.  `events` is the streamed response and
`join_results` the outcomes of the spawned executor tasks, in dispatch
order. -/
def ai_loop_iter (parse : String → Option Json) (messages : List Message)
    (events : List StreamEvent)
    (join_results : List (Except String (Except String String))) :
    List Message × TurnOutcome :=
  let st := run_stream parse initState events
  let messages := messages ++ [⟨"assistant", st.assistant_content⟩]
  let tool_uses := tool_uses_of st.assistant_content
  if tool_uses.isEmpty || st.stop_reason != some STOP_REASON_TOOL_USE then
    (messages, .done)
  else
    match collect_tool_results (tool_uses.zip join_results) with
    | .error e => (messages, .errored e)
    | .ok tool_results =>
      (messages ++ [user_message_with_tool_results tool_results], .again)

end Agent

/-- Object-field access `Value::get(key)`: `None` on non-objects. -/
def Json.get (j : Json) (k : String) : Option Json :=
  match j with
  | .obj fields => fields.lookup k
  | _ => none

/-- Rust `Value::as_str()`. -/
def Json.asStr : Json → Option String
  | .str s => some s
  | _ => none

namespace Feishu

/-- Protobuf frame header (proto.rs `Header`). -/
structure Header where
  key : String
  value : String
deriving Repr, DecidableEq

/-- Protobuf WebSocket frame (proto.rs `Frame`); `i32` fields become `Int`,
`Vec<u8>` becomes `List Nat`. -/
structure Frame where
  seq_id : Int
  log_id : Int
  service : Int
  method : Int
  headers : List Header
  payload_encoding : String
  payload_type : String
  payload : List Nat
  log_id_new : String
deriving Repr, DecidableEq

/-- Frame method constant (proto.rs). -/
def METHOD_CONTROL : Int := 0

/-- Frame method constant (proto.rs). -/
def METHOD_DATA : Int := 1

/-- Header key constant (proto.rs). -/
def HEADER_TYPE : String := "type"

/-- Header key constant (proto.rs). -/
def HEADER_MESSAGE_ID : String := "message_id"

/-- Header key constant (proto.rs). -/
def HEADER_SUM : String := "sum"

/-- Header key constant (proto.rs). -/
def HEADER_SEQ : String := "seq"

/-- Header key constant (proto.rs). -/
def HEADER_TRACE_ID : String := "trace_id"

/-- Header key constant (proto.rs). -/
def HEADER_BIZ_RT : String := "biz_rt"

/-- Message type constant (proto.rs). -/
def MSG_TYPE_EVENT : String := "event"

/-- Multi-part message cache entry (event.rs `CacheEntry`); the `created`
timestamp drives only the 10-second eviction, which is real-time behaviour
outside this model. -/
structure CacheEntry where
  parts : List (Option (List Nat))
  trace_id : String
deriving Repr, DecidableEq

/-- The `HashMap<String, CacheEntry>` of partially received multi-part
messages, as a map. -/
def Cache : Type := String → Option CacheEntry

/-- Map update, as performed by `cache.entry(..).or_insert_with(..)`
mutation. -/
def cacheInsert (cache : Cache) (k : String) (v : CacheEntry) : Cache :=
  fun k' => if k' == k then some v else cache k'

/-- Map removal `cache.remove(message_id)`. -/
def cacheRemove (cache : Cache) (k : String) : Cache :=
  fun k' => if k' == k then none else cache k'

/-- Translation of `merge_parts` (event.rs:268-303): single-part messages
pass through; otherwise the part is buffered under its `seq` index in the
entry for `message_id` (created with `sum` empty slots on first sight), and
once every slot is filled the parts are concatenated in seq order, the entry
is dropped, and the merged payload is returned. -/
def merge_parts (cache : Cache) (message_id : String) (sum seq : Nat)
    (trace_id : String) (data : List Nat) : Cache × Option (List Nat) :=
  if sum ≤ 1 then (cache, some data)
  else
    let entry := match cache message_id with
      | some e => e
      | none => ⟨List.replicate sum none, trace_id⟩
    let entry :=
      if seq < entry.parts.length then { entry with parts := entry.parts.set seq (some data) }
      else entry
    if entry.parts.all Option.isSome then
      (cacheRemove cache message_id,
       some (entry.parts.map (fun p => p.getD [])).flatten)
    else
      (cacheInsert cache message_id entry, none)

/-- Transport-level event (mod.rs `TransportEvent`). -/
inductive TransportEvent where
  | newMessage (conv_id user_id text : String)
  | replyMessage (card_msg_id text : String)
  | fileMessage (conv_id user_id message_id file_key file_name : String)
      (parent_id : Option String)
deriving Repr, DecidableEq

/-- Header lookup through the `HashMap` built by collecting the header list:
on duplicate keys the later entry wins, as in `HashMap::from_iter`. -/
def headerLookup (headers : List Header) (k : String) : Option String :=
  (headers.reverse.find? (fun h => h.key == k)).map Header.value

/-- Rust `str::parse::<usize>()`: an optional `+` sign followed by one or more
ASCII digits (overflow at `usize::MAX` is not modelled). -/
def parse_usize (s : String) : Option Nat :=
  let ds := match s.data with
    | '+' :: rest => rest
    | l => l
  if ds.isEmpty then none
  else if ds.all Char.isDigit then
    some (ds.foldl (fun acc c => acc * 10 + (c.toNat - 48)) 0)
  else none

/-- Translation of `parse_event_json` (event.rs:305-351); `parseStr` is the
`serde_json::from_str` oracle used for the nested `content` string. -/
def parse_event_json (parseStr : String → Option Json) (json : Json) :
    Option TransportEvent := do
  let header ← json.get "header"
  let event_type ← (header.get "event_type").bind Json.asStr
  if event_type != "im.message.receive_v1" then none
  else
    let event ← json.get "event"
    let message ← event.get "message"
    let chat_id ← (message.get "chat_id").bind Json.asStr
    let msg_type ← (message.get "message_type").bind Json.asStr
    let sender_id :=
      ((((event.get "sender").bind (Json.get · "sender_id")).bind
        (Json.get · "open_id")).bind Json.asStr).getD "unknown"
    if msg_type != "text" then none
    else
      let content_str ← (message.get "content").bind Json.asStr
      let content ← parseStr content_str
      let text ← (content.get "text").bind Json.asStr
      match (message.get "parent_id").bind Json.asStr with
      | some parent_msg_id => some (.replyMessage parent_msg_id text)
      | none => some (.newMessage chat_id sender_id text)

/-- UTF-8 bytes of an ASCII string (every string encoded in the translated
paths is ASCII, where UTF-8 coincides with the code points). -/
def strBytes (s : String) : List Nat :=
  s.data.map Char.toNat

/-- Observable outcome of `handle_frame`: the updated multi-part cache, the
frames written back to the WebSocket, and the transport events dispatched on
the bridge channel. -/
structure HandleResult where
  cache : Cache
  sent : List Frame
  events : List TransportEvent

/-- Translation of `handle_frame` (event.rs:180-266).  `parseBytes` is the
`serde_json::from_str` oracle applied to the lossily UTF-8 decoded merged
payload; `parseStr` the one used inside `parse_event_json`.  Control frames
and non-data methods are ignored; data frames whose `type` header is not
`event` are ignored; incomplete multi-part messages only update the cache;
a completed payload is parsed (dispatching the parsed event, if any) and
acknowledged with a response frame carrying the original `seq_id`, the
original headers plus `biz_rt=0`, and payload `{"code":200}` (500 when the
payload fails to parse). -/
def handle_frame (parseBytes : List Nat → Option Json) (parseStr : String → Option Json)
    (frame : Frame) (cache : Cache) (service_id : Int) : HandleResult :=
  if frame.method == METHOD_CONTROL then ⟨cache, [], []⟩
  else if frame.method != METHOD_DATA then ⟨cache, [], []⟩
  else
    let msg_type := (headerLookup frame.headers HEADER_TYPE).getD ""
    if msg_type != MSG_TYPE_EVENT then ⟨cache, [], []⟩
    else
      let message_id := (headerLookup frame.headers HEADER_MESSAGE_ID).getD ""
      let sum := ((headerLookup frame.headers HEADER_SUM).bind parse_usize).getD 1
      let seq := ((headerLookup frame.headers HEADER_SEQ).bind parse_usize).getD 0
      let trace_id := (headerLookup frame.headers HEADER_TRACE_ID).getD ""
      match merge_parts cache message_id sum seq trace_id frame.payload with
      | (cache', none) => ⟨cache', [], []⟩
      | (cache', some data_bytes) =>
        let parsed := parseBytes data_bytes
        let events := match parsed with
          | some json => (parse_event_json parseStr json).toList
          | none => []
        let resp_code : Nat := if parsed.isSome then 200 else 500
        let resp_frame : Frame :=
          { seq_id := frame.seq_id, log_id := frame.log_id, service := service_id,
            method := METHOD_DATA,
            headers := frame.headers ++ [⟨HEADER_BIZ_RT, "0"⟩],
            payload_encoding := "", payload_type := "",
            payload := strBytes ("\x7b\"code\":" ++ toString resp_code ++ "\x7d"),
            log_id_new := "" }
        ⟨cache', [resp_frame], events⟩

end Feishu

namespace FeishuApi

/-- Error code `CODE_TOKEN_INVALID` (api.rs). -/
def CODE_TOKEN_INVALID : Int := 99991663

/-- Error code `CODE_TOKEN_EXPIRED` (api.rs). -/
def CODE_TOKEN_EXPIRED : Int := 99991661

/-- Translation of `FeishuApi::is_token_error` (api.rs:100-102). -/
def is_token_error (code : Int) : Bool :=
  code == CODE_TOKEN_INVALID || code == CODE_TOKEN_EXPIRED

/-- The `FeishuApi` fields a token-refreshing call can read or write: the app
credentials and the cached tenant token behind its lock. -/
structure ApiState where
  app_id : String
  app_secret : String
  tenant_token : Option String
deriving Repr, DecidableEq

/-- Deserialized body of the token endpoint (api.rs `TokenResponse`). -/
structure TokenResponse where
  code : Int
  msg : String
  tenant_access_token : Option String
deriving Repr, DecidableEq

/-- Externally visible HTTP actions of a `FeishuApi` call, in order:
`refreshToken` is the `POST /auth/v3/tenant_access_token/internal` carrying
the credentials of its JSON body, `request` is the payload-carrying API
request with the bearer token it was sent with. -/
inductive ApiAction where
  | refreshToken (app_id app_secret : String)
  | request (token : String)
deriving Repr, DecidableEq

/-- Translation of `FeishuApi::refresh_token` (api.rs:75-98): POST the app
credentials to the internal token endpoint (`resp` is the oracle for its
response); on `code = 0` with a token present, cache and return it.  Returns
the updated state, the emitted actions, and the result. -/
def refresh_token (st : ApiState) (resp : TokenResponse) :
    ApiState × List ApiAction × Except String String :=
  let acts := [ApiAction.refreshToken st.app_id st.app_secret]
  if resp.code != 0 then
    (st, acts, .error ("Failed to get tenant token: " ++ resp.msg))
  else
    match resp.tenant_access_token with
    | none => (st, acts, .error "No token in response")
    | some t => ({ st with tenant_token := some t }, acts, .ok t)

/-- Translation of `FeishuApi::get_token` (api.rs:60-68): return the cached
token, refreshing when none is cached. -/
def get_token (st : ApiState) (resp : TokenResponse) :
    ApiState × List ApiAction × Except String String :=
  match st.tenant_token with
  | some t => (st, [], .ok t)
  | none => refresh_token st resp

/-- Translation of `FeishuApi::invalidate_and_refresh` (api.rs:70-73): clear
the cache, then refresh. -/
def invalidate_and_refresh (st : ApiState) (resp : TokenResponse) :
    ApiState × List ApiAction × Except String String :=
  refresh_token { st with tenant_token := none } resp

/-- Translation of `FeishuApi::cardkit_call` (api.rs:454-497), the generic
mutating JSON call with automatic token retry.  The network is abstracted by
oracles: `refresh1`/`refresh2` are the token endpoint's responses to a first
and second refresh, and `respond t` is the `code` field of the API response
to the request when sent with bearer token `t` (`resp["code"].as_i64()
.unwrap_or(-1)`).  Returns the final state, the emitted actions, and either
the successful response code or the propagated error. -/
def cardkit_call (st : ApiState) (refresh1 refresh2 : TokenResponse)
    (respond : String → Int) : ApiState × List ApiAction × Except String Int :=
  match get_token st refresh1 with
  | (st1, acts1, .error e) => (st1, acts1, .error e)
  | (st1, acts1, .ok token) =>
    let code := respond token
    if is_token_error code then
      match invalidate_and_refresh st1 refresh2 with
      | (st2, acts2, .error e) =>
        (st2, acts1 ++ [.request token] ++ acts2, .error e)
      | (st2, acts2, .ok new_token) =>
        let code2 := respond new_token
        if code2 != 0 then
          (st2, acts1 ++ [.request token] ++ acts2 ++ [.request new_token],
           .error ("API failed (code=" ++ toString code2 ++ ")"))
        else
          (st2, acts1 ++ [.request token] ++ acts2 ++ [.request new_token],
           .ok code2)
    else if code != 0 then
      (st1, acts1 ++ [.request token], .error ("API failed (code=" ++ toString code ++ ")"))
    else
      (st1, acts1 ++ [.request token], .ok code)

end FeishuApi

namespace Client

/-- Constant `API_VERSION` (ai/client.rs). -/
def API_VERSION : String := "2023-06-01"

/-- Rust `str::contains(pat)`: some offset of the haystack starts with the
pattern. -/
def containsSubstr (s pat : String) : Bool :=
  (List.range (s.data.length + 1)).any fun i => pat.data.isPrefixOf (s.data.drop i)

/-- Rust `str::trim_end_matches('/')`. -/
def trimEndSlashes (s : String) : String :=
  ⟨(s.data.reverse.dropWhile (fun c => c == '/')).reverse⟩

/-- An outgoing HTTP request as observable from `stream_message`: the URL and
the headers set before the body is attached. -/
structure HttpRequest where
  url : String
  headers : List (String × String)
deriving Repr, DecidableEq

/-- Request construction of `AnthropicClient::stream_message`
(ai/client.rs:34-47): the URL is the base with trailing slashes removed plus
`/v1/messages`; a base URL containing `anthropic.com` authenticates with
`x-api-key` and `anthropic-version`, any other base URL with
`authorization: Bearer`; `content-type` is always set. -/
def stream_message_request (base_url api_key : String) : HttpRequest :=
  let url := trimEndSlashes base_url ++ "/v1/messages"
  let auth_headers :=
    if containsSubstr base_url "anthropic.com" then
      [("x-api-key", api_key), ("anthropic-version", API_VERSION)]
    else
      [("authorization", "Bearer " ++ api_key)]
  ⟨url, auth_headers ++ [("content-type", "application/json")]⟩

end Client

section MergeParts

open Feishu

/-- C4: for a multi-part frame (`sum = N > 1`) for `message_id = M`, one call
to `merge_parts` buffers the part under its `seq` index in the entry for `M`
(`parts1` below is the buffered state after the call, starting from the
existing entry or a fresh one of `N` empty slots); the merged payload is
returned exactly when all `N` parts with seq in `0..N-1` are present, in
which case it is the concatenation of the part payloads in seq order and the
cache entry for `M` is removed; otherwise the call returns `None` and the
entry holds `parts1`.  The hypothesis `hwf` is the invariant that an existing
entry for `M` has `N` slots, which holds for any call sequence sharing `M`'s
header sum `N` (fresh entries are created with `N` slots and are only ever
updated slot-wise). -/
theorem merge_parts_characterization
    (cache : Cache) (M : String) (N seq : Nat) (tid : String) (data : List Nat)
    (parts0 parts1 : List (Option (List Nat)))
    (hN : 1 < N)
    (hp0 : parts0 = (match cache M with
      | some e => e.parts
      | none => List.replicate N (none : Option (List Nat))))
    (hwf : parts0.length = N)
    (hp1 : parts1 = if seq < N then parts0.set seq (some data) else parts0) :
    parts1.length = N ∧
    (parts1.all Option.isSome = true →
      (merge_parts cache M N seq tid data).2
          = some (parts1.map (fun p => p.getD [])).flatten ∧
      (merge_parts cache M N seq tid data).1 M = none) ∧
    (parts1.all Option.isSome = false →
      (merge_parts cache M N seq tid data).2 = none ∧
      ∃ e, (merge_parts cache M N seq tid data).1 M = some e ∧ e.parts = parts1) := by
  have hNle : ¬ (N ≤ 1) := by omega
  have hlen1 : parts1.length = N := by
    subst hp1
    by_cases h : seq < N <;> simp [h, hwf]
  have key : merge_parts cache M N seq tid data
      = (if parts1.all Option.isSome then
          (cacheRemove cache M, some (parts1.map (fun p => p.getD [])).flatten)
         else
          (cacheInsert cache M ⟨parts1, (match cache M with
            | some e => e.trace_id
            | none => tid)⟩, none)) := by
    unfold merge_parts
    rw [if_neg hNle]
    rcases h : cache M with _ | e <;>
      simp only [h] at hp0 ⊢ <;>
      subst hp0 <;>
      by_cases hseq : seq < N <;>
      simp only [List.length_replicate, hwf, hseq, if_true, if_false, ite_true, ite_false] at hp1 ⊢ <;>
      subst hp1 <;>
      rfl
  refine ⟨hlen1, ?_, ?_⟩ <;> intro hall
  · rw [key, if_pos hall]
    exact ⟨rfl, by simp [cacheRemove]⟩
  · rw [key, if_neg (by simp [hall])]
    refine ⟨rfl, ⟨parts1, (match cache M with
      | some e => e.trace_id
      | none => tid)⟩, by simp [cacheInsert], rfl⟩

/-- Witness for `merge_parts_characterization`: on an empty cache, part
`seq = 1` of a two-part message is buffered and the call returns `None`. -/
theorem merge_parts_characterization_witness :
    (1 : Nat) < 2 ∧
    ([none, some ([1, 2] : List Nat)] : List (Option (List Nat))).all Option.isSome = false ∧
    (Feishu.merge_parts (fun _ => none) "m" 2 1 "t" [1, 2]).2 = none := by
  have h := merge_parts_characterization (fun _ => none) "m" 2 1 "t" [1, 2]
    (List.replicate 2 none) [none, some [1, 2]] (by decide) (by rfl) (by decide) (by decide)
  exact ⟨by decide, by decide, (h.2.2 (by decide)).1⟩

end MergeParts

section HandleFrame

open Feishu

/-- C5 counterexample: an inbound frame with `method=data` (method=1) whose
`type` header is not `event` is answered with no response frame at all —
`handle_frame` returns before the acknowledgement is built — refuting the
claim that every data frame is echoed with a response frame. -/
theorem handle_frame_counterexample :
    (handle_frame (fun _ => none) (fun _ => none)
      ⟨7, 0, 0, METHOD_DATA, [⟨HEADER_TYPE, "other"⟩], "", "", [], ""⟩
      (fun _ => none) 0).sent = [] := by
  rfl

/-- C5 (amended): for every inbound frame with `method=data` whose `type`
header is `event` and whose payload completes reassembly (`merge_parts`
returns a merged payload), the transport sends back exactly one response
frame with the same `seq_id`, method=data, the original headers plus one
extra header `biz_rt=0`, and JSON payload `{"code":200}` when the merged
payload decodes as JSON or `{"code":500}` when decoding fails. -/
theorem handle_frame_event_ack (parseBytes : List Nat → Option Json)
    (parseStr : String → Option Json) (frame : Frame) (cache cache' : Cache)
    (service_id : Int) (data_bytes : List Nat)
    (hmethod : frame.method = METHOD_DATA)
    (htype : (headerLookup frame.headers HEADER_TYPE).getD "" = MSG_TYPE_EVENT)
    (hmerge : merge_parts cache ((headerLookup frame.headers HEADER_MESSAGE_ID).getD "")
        (((headerLookup frame.headers HEADER_SUM).bind parse_usize).getD 1)
        (((headerLookup frame.headers HEADER_SEQ).bind parse_usize).getD 0)
        ((headerLookup frame.headers HEADER_TRACE_ID).getD "") frame.payload
      = (cache', some data_bytes)) :
    (handle_frame parseBytes parseStr frame cache service_id).sent
      = [{ seq_id := frame.seq_id, log_id := frame.log_id, service := service_id,
           method := METHOD_DATA,
           headers := frame.headers ++ [⟨HEADER_BIZ_RT, "0"⟩],
           payload_encoding := "", payload_type := "",
           payload := strBytes ("\x7b\"code\":"
             ++ toString (if (parseBytes data_bytes).isSome then (200 : Nat) else 500)
             ++ "\x7d"),
           log_id_new := "" }] := by
  unfold handle_frame
  rw [hmethod]
  simp only [METHOD_DATA, METHOD_CONTROL, htype, MSG_TYPE_EVENT, hmerge]
  norm_num

/-- Witness for `handle_frame_event_ack`: a single-part event frame whose
payload fails to decode is acknowledged with `{"code":500}` and the original
`seq_id`. -/
theorem handle_frame_event_ack_witness :
    (handle_frame (fun _ => none) (fun _ => none)
      ⟨5, 1, 0, 1, [⟨"type", "event"⟩], "", "", [65], ""⟩ (fun _ => none) 3).sent
    = [⟨5, 1, 3, 1, [⟨"type", "event"⟩, ⟨"biz_rt", "0"⟩], "", "",
        strBytes "\x7b\"code\":500\x7d", ""⟩] := by
  have h := handle_frame_event_ack (fun _ => none) (fun _ => none)
    ⟨5, 1, 0, 1, [⟨"type", "event"⟩], "", "", [65], ""⟩ (fun _ => none) (fun _ => none)
    3 [65] rfl rfl rfl
  rw [h]
  rfl

end HandleFrame

section TokenRetry

open FeishuApi

/-- C6: for a mutating Feishu API call (`cardkit_call`) holding a cached
tenant token `t`, if the response carries error code 99991663 or 99991661
(`is_token_error`), then the cached token is invalidated and replaced by the
fresh token `t'` fetched from `POST /auth/v3/tenant_access_token/internal`
with the app credentials (the `refreshToken st.app_id st.app_secret` action),
the original request is retried exactly once with the new token (the action
trace holds exactly two `request` actions, the second with `t'`), and the
error reaches the caller exactly when that single retry also fails
(a non-zero code on the retried request). -/
theorem cardkit_call_token_retry (st : ApiState) (r1 r2 : TokenResponse)
    (respond : String → Int) (t t' : String)
    (hcached : st.tenant_token = some t)
    (herr : is_token_error (respond t) = true)
    (hr2code : r2.code = 0)
    (hr2tok : r2.tenant_access_token = some t') :
    cardkit_call st r1 r2 respond
      = ({ st with tenant_token := some t' },
         [.request t, .refreshToken st.app_id st.app_secret, .request t'],
         if respond t' != 0 then
           .error ("API failed (code=" ++ toString (respond t') ++ ")")
         else .ok (respond t')) := by
  unfold cardkit_call get_token invalidate_and_refresh refresh_token
  simp [hcached, herr, hr2code, hr2tok]
  split <;> rfl

/-- Witness for `cardkit_call_token_retry`: a cached token answered only with
code 99991663 is refreshed once and the retried request, answered with code
0, succeeds. -/
theorem cardkit_call_token_retry_witness :
    cardkit_call ⟨"app", "sec", some "tok"⟩ ⟨0, "", none⟩ ⟨0, "", some "tok2"⟩
      (fun s => if s == "tok" then 99991663 else 0)
    = (⟨"app", "sec", some "tok2"⟩,
       [.request "tok", .refreshToken "app" "sec", .request "tok2"], .ok 0) := by
  have h := cardkit_call_token_retry ⟨"app", "sec", some "tok"⟩ ⟨0, "", none⟩
    ⟨0, "", some "tok2"⟩ (fun s => if s == "tok" then 99991663 else 0) "tok" "tok2"
    rfl (by decide) rfl rfl
  exact h.trans rfl

end TokenRetry

section ClientAuth

open Client

/-- Correctness of the `str::contains` model: `containsSubstr s pat` holds
exactly when `pat` occurs as a contiguous substring of `s`. -/
theorem containsSubstr_iff_append (s pat : String) :
    containsSubstr s pat = true
      ↔ ∃ pre post : List Char, s.data = pre ++ pat.data ++ post := by
  unfold containsSubstr
  rw [List.any_eq_true]
  constructor
  · rintro ⟨i, hi, hpre⟩
    rw [List.isPrefixOf_iff_prefix] at hpre
    obtain ⟨t, ht⟩ := hpre
    refine ⟨s.data.take i, t, ?_⟩
    rw [List.append_assoc, ht, List.take_append_drop]
  · rintro ⟨pre, post, hs⟩
    refine ⟨pre.length, ?_, ?_⟩
    · rw [List.mem_range]
      have : s.data.length = pre.length + (pat.data.length + post.length) := by
        rw [hs]; simp
      omega
    · rw [List.isPrefixOf_iff_prefix, hs, List.append_assoc, List.drop_left]
      exact ⟨post, rfl⟩

/-- C8: `stream_message` selects its authentication headers by a base-URL
substring test: when the base URL contains `anthropic.com` the request
carries `x-api-key` with the key and `anthropic-version: 2023-06-01`; any
other base URL carries `authorization: Bearer <key>` instead. -/
theorem stream_message_auth_selection (base_url api_key : String) :
    ((∃ pre post : List Char, base_url.data = pre ++ "anthropic.com".data ++ post) →
      (stream_message_request base_url api_key).headers
        = [("x-api-key", api_key), ("anthropic-version", "2023-06-01"),
           ("content-type", "application/json")]) ∧
    ((¬ ∃ pre post : List Char, base_url.data = pre ++ "anthropic.com".data ++ post) →
      (stream_message_request base_url api_key).headers
        = [("authorization", "Bearer " ++ api_key),
           ("content-type", "application/json")]) := by
  constructor <;> intro h
  · have hc : containsSubstr base_url "anthropic.com" = true :=
      (containsSubstr_iff_append base_url "anthropic.com").2 h
    simp [stream_message_request, hc, API_VERSION]
  · have hc : containsSubstr base_url "anthropic.com" = false := by
      rcases hb : containsSubstr base_url "anthropic.com" with _ | _
      · rfl
      · exact absurd ((containsSubstr_iff_append base_url "anthropic.com").1 hb) h
    simp [stream_message_request, hc]

/-- Witness for `stream_message_auth_selection`: a first-party base URL gets
`x-api-key` + `anthropic-version`, a third-party base URL gets a bearer
token. -/
theorem stream_message_auth_selection_witness :
    (stream_message_request "https://api.anthropic.com" "k").headers
      = [("x-api-key", "k"), ("anthropic-version", "2023-06-01"),
         ("content-type", "application/json")] ∧
    (stream_message_request "https://example.com/v1" "k").headers
      = [("authorization", "Bearer k"), ("content-type", "application/json")] := by
  constructor
  · exact (stream_message_auth_selection "https://api.anthropic.com" "k").1
      ⟨"https://api.".data, [], by decide⟩
  · refine (stream_message_auth_selection "https://example.com/v1" "k").2 ?_
    intro hex
    have hc := (containsSubstr_iff_append "https://example.com/v1" "anthropic.com").2 hex
    exact absurd hc (by decide)

end ClientAuth

section StripRetry

open ApplyPatch

/-- C7: in the `compute_replacements` loop body, a chunk whose `old_lines` is
not found by the initial search and ends with an empty string is retried with
that trailing empty line stripped from the pattern — and stripped from
`new_lines` too when `new_lines` also ends with one — and a successful retry
records the stripped pattern's length and the stripped `new_lines` as the
replacement (advancing the cursor past it); when the retry also misses, the
chunk fails with the `Failed to find expected lines` error. -/
theorem chunk_step_strip_retry (lines : List String) (li idx : Nat)
    (chunk : UpdateChunk)
    (hctx : resolve_context lines li chunk.context = .ok idx)
    (hne : chunk.old_lines ≠ [])
    (hmiss : seek_sequence lines chunk.old_lines idx chunk.is_end_of_file = none)
    (hlast : chunk.old_lines.getLast? = some "") :
    (∀ s, seek_sequence lines chunk.old_lines.dropLast idx chunk.is_end_of_file = some s →
      chunk_step lines li chunk
        = .ok ((s, chunk.old_lines.dropLast.length,
                if chunk.new_lines.getLast? == some "" then chunk.new_lines.dropLast
                else chunk.new_lines),
               s + chunk.old_lines.dropLast.length)) ∧
    (seek_sequence lines chunk.old_lines.dropLast idx chunk.is_end_of_file = none →
      chunk_step lines li chunk = .error "Failed to find expected lines") := by
  have hemp : chunk.old_lines.isEmpty = false := by
    cases h : chunk.old_lines with
    | nil => exact absurd h hne
    | cons a l => rfl
  constructor
  · intro s hs
    simp only [chunk_step, hctx, chunk_search, hemp, hmiss, hlast, hs]
    rfl
  · intro hs
    simp only [chunk_step, hctx, chunk_search, hemp, hmiss, hlast, hs]
    rfl

/-- Witness for `chunk_step_strip_retry`: the pattern `["b", ""]` misses in
`["a", "b"]`, the stripped pattern `["b"]` is found at index 1, and the
stripped `new_lines` `["X"]` is recorded. -/
theorem chunk_step_strip_retry_witness :
    chunk_step ["a", "b"] 0 ⟨none, ["b", ""], ["X", ""], false⟩
      = .ok ((1, 1, ["X"]), 2) := by
  have h := chunk_step_strip_retry ["a", "b"] 0 0 ⟨none, ["b", ""], ["X", ""], false⟩
    rfl (by decide) (by decide) (by decide)
  exact (h.1 1 (by decide)).trans rfl

end StripRetry

section AbsolutePaths

open ApplyPatch

/-- C9: `resolve_path` returns absolute hunk paths unchanged — so
`apply_hunks` creates and deletes (and likewise updates and moves) files at
the absolute path itself, regardless of the configured `work_dir` — while a
relative path is joined under `work_dir` (for a non-empty `work_dir` without
a trailing slash, `work_dir ++ "/" ++ path`). -/
theorem apply_patch_absolute_paths (wd p : String) :
    (is_absolute p = true → resolve_path wd p = p) ∧
    (is_absolute p = false → wd ≠ "" → ['/'].isPrefixOf wd.data.reverse = false →
      resolve_path wd p = wd ++ "/" ++ p) ∧
    (∀ c fs, is_absolute p = true →
      apply_hunks [.addFile p c] wd fs = .ok (fsWrite fs p c, ["Created " ++ p])) ∧
    (∀ fs contents, is_absolute p = true → fs p = some contents →
      apply_hunks [.deleteFile p] wd fs = .ok (fsRemove fs p, ["Deleted " ++ p])) := by
  refine ⟨?_, ?_, ?_, ?_⟩
  · intro habs
    simp [resolve_path, habs]
  · intro habs hwd hsl
    simp [resolve_path, path_join, habs, hwd, hsl]
  · intro c fs habs
    simp [apply_hunks, resolve_path, habs]
  · intro fs contents habs hfs
    simp [apply_hunks, resolve_path, habs, hfs]

/-- Witness for `apply_patch_absolute_paths`: with `work_dir = "/work"`, an
`Add File` hunk for the absolute path `/etc/target` writes `/etc/target`
itself. -/
theorem apply_patch_absolute_paths_witness :
    resolve_path "/work" "/etc/target" = "/etc/target" ∧
    apply_hunks [.addFile "/etc/target" "x"] "/work" (fun _ => some "old")
      = .ok (fsWrite (fun _ => some "old") "/etc/target" "x",
             ["Created /etc/target"]) := by
  have h := apply_patch_absolute_paths "/work" "/etc/target"
  exact ⟨h.1 (by decide), h.2.2.1 "x" (fun _ => some "old") (by decide)⟩

end AbsolutePaths

section ToolInputFallback

open Agent

/-- C10: when a pending `ToolUse` block is finalized (here at the
`ContentBlockStop` site) and its accumulated input-JSON buffer fails to
parse, the block's input falls back to the empty JSON object instead of the
turn failing, the block is appended to the assistant content, and it still
appears in the dispatch list (`tool_uses_of`) with that empty-object
input. -/
theorem tool_input_fallback (parse : String → Option Json) (st : LoopStreamState)
    (idx : Nat) (id name : String) (inp0 : Json)
    (hblk : st.current_tool_block = some (.toolUse id name inp0))
    (hparse : parse st.current_tool_json = none) :
    (stream_step parse st (.contentBlockStop idx)).assistant_content
      = (flush_text st).assistant_content ++ [.toolUse id name (Json.obj [])] ∧
    (id, name, Json.obj []) ∈ tool_uses_of
      ((stream_step parse st (.contentBlockStop idx)).assistant_content) := by
  have hjson : (flush_text st).current_tool_json = st.current_tool_json := by
    unfold flush_text; split <;> rfl
  have hblk' : (flush_text st).current_tool_block = some (.toolUse id name inp0) := by
    unfold flush_text; split <;> simp [hblk]
  have hmain : (stream_step parse st (.contentBlockStop idx)).assistant_content
      = (flush_text st).assistant_content ++ [.toolUse id name (Json.obj [])] := by
    simp only [stream_step, flush_tool]
    rw [hblk', hjson]
    simp [set_tool_input, hparse]
  refine ⟨hmain, ?_⟩
  rw [hmain]
  simp [tool_uses_of, List.filterMap_append]

/-- Witness for `tool_input_fallback`: a buffered tool block whose input
buffer `"notjson"` fails the parse oracle is finalized with input `{}` and
dispatched. -/
theorem tool_input_fallback_witness :
    (stream_step (fun _ => none)
        ⟨[], "", "notjson", some (.toolUse "t1" "bash" Json.null), none, 0⟩
        (.contentBlockStop 0)).assistant_content
      = [.toolUse "t1" "bash" (Json.obj [])] ∧
    ("t1", "bash", Json.obj []) ∈ tool_uses_of
      ((stream_step (fun _ => none)
        ⟨[], "", "notjson", some (.toolUse "t1" "bash" Json.null), none, 0⟩
        (.contentBlockStop 0)).assistant_content) := by
  have h := tool_input_fallback (fun _ => none)
    ⟨[], "", "notjson", some (.toolUse "t1" "bash" Json.null), none, 0⟩
    0 "t1" "bash" Json.null rfl rfl
  exact ⟨h.1.trans rfl, h.2⟩

end ToolInputFallback

section ToolResults

open Agent

/-- Elementwise description of `List.zip` under `getD`. -/
theorem zip_getD {α β : Type} (d1 : α) (d2 : β) :
    ∀ (l1 : List α) (l2 : List β) (k : Nat), k < l1.length → k < l2.length →
      (l1.zip l2).getD k (d1, d2) = (l1.getD k d1, l2.getD k d2)
  | [], _, k, h1, _ => absurd h1 (by simp)
  | _ :: _, [], k, _, h2 => absurd h2 (by simp)
  | _ :: _, _ :: _, 0, _, _ => rfl
  | _ :: t1, _ :: t2, k + 1, h1, h2 =>
    zip_getD d1 d2 t1 t2 k (by simpa using h1) (by simpa using h2)

/-- A member of the right list of a `zip` of equal-length lists appears in the
zip paired with some left element. -/
theorem exists_mem_zip_of_mem_right {α β : Type} :
    ∀ (l1 : List α) (l2 : List β) (r : β), r ∈ l2 → l2.length = l1.length →
      ∃ x, (x, r) ∈ l1.zip l2
  | [], l2, r, hr, hlen => by
    cases l2 with
    | nil => exact absurd hr (by simp)
    | cons b t => simp at hlen
  | a :: t1, l2, r, hr, hlen => by
    cases l2 with
    | nil => exact absurd hr (by simp)
    | cons b t2 =>
      rcases List.mem_cons.1 hr with h | h
      · exact ⟨a, by simp [h]⟩
      · obtain ⟨x, hx⟩ := exists_mem_zip_of_mem_right t1 t2 r h (by simpa using hlen)
        exact ⟨x, by simp [hx]⟩

/-- When every join result is `Ok`, `collect_tool_results` produces one
`ToolResult` block per entry, in order, echoing each entry's tool-use id. -/
theorem collect_tool_results_ok :
    ∀ (l : List ((String × String × Json) × Except String (Except String String))),
      (∀ p ∈ l, p.2.isOk = true) →
      ∃ blocks, collect_tool_results l = .ok blocks ∧ blocks.length = l.length ∧
        ∀ k, k < l.length → ∃ c e,
          blocks.getD k (.text "")
            = .toolResult (l.getD k (("", "", Json.null), .ok (.ok ""))).1.1 c e
  | [], _ => ⟨[], rfl, rfl, fun k hk => absurd hk (by simp)⟩
  | (tu, jr) :: rest, hok => by
    cases jr with
    | error e =>
      have := hok (tu, .error e) (by simp)
      simp [Except.isOk, Except.toBool] at this
    | ok result =>
      obtain ⟨blocks, hcol, hlen, hidx⟩ :=
        collect_tool_results_ok rest (fun p hp => hok p (List.mem_cons_of_mem _ hp))
      cases result with
      | ok out =>
        refine ⟨tool_result_block tu.1 out false :: blocks, ?_, ?_, ?_⟩
        · simp only [collect_tool_results, hcol]
        · simpa using hlen
        · intro k hk
          cases k with
          | zero => exact ⟨_, _, rfl⟩
          | succ k => exact hidx k (by simpa using hk)
      | error err =>
        refine ⟨tool_result_block tu.1 ("Error: " ++ err) true :: blocks, ?_, ?_, ?_⟩
        · simp only [collect_tool_results, hcol]
        · simpa using hlen
        · intro k hk
          cases k with
          | zero => exact ⟨_, _, rfl⟩
          | succ k => exact hidx k (by simpa using hk)

/-- When some join result fails, `collect_tool_results` propagates an
error. -/
theorem collect_tool_results_error :
    ∀ (l : List ((String × String × Json) × Except String (Except String String))),
      (∃ p ∈ l, p.2.isOk = false) →
      ∃ e, collect_tool_results l = .error e
  | [], hbad => by
    obtain ⟨p, hp, _⟩ := hbad
    exact absurd hp (by simp)
  | (tu, jr) :: rest, hbad => by
    cases jr with
    | error e => exact ⟨"Task join error: " ++ e, rfl⟩
    | ok result =>
      have hrest : ∃ p ∈ rest, p.2.isOk = false := by
        obtain ⟨p, hp, hbadp⟩ := hbad
        rcases List.mem_cons.1 hp with h | h
        · subst h
          simp [Except.isOk, Except.toBool] at hbadp
        · exact ⟨p, h, hbadp⟩
      obtain ⟨e, he⟩ := collect_tool_results_error rest hrest
      exact ⟨e, by simp only [collect_tool_results, he]⟩

end ToolResults

section TurnInvariant

open Agent

/-- C2 counterexample: the claim quantifies over every turn whose stop
reason is `tool_use` and whose finalized assistant message contains
`ToolUse` blocks, but on a turn whose dispatched executor task's join fails
the history gains only the assistant message — the loop aborts with a
`Task join error` and no user-role tool-results message is appended at all,
so the next message appended is not the claimed single user message of
matching `ToolResult` blocks. -/
theorem ai_loop_tool_results_counterexample :
    ai_loop_iter (fun _ => none) []
      [.contentBlockStart 0 (.toolUse "t9" "read_file" (Json.obj [])),
       .contentBlockStop 0, .messageDelta (some "tool_use"), .messageStop]
      [.error "out of memory"]
    = ([⟨"assistant", [.toolUse "t9" "read_file" (Json.obj [])]⟩],
       .errored "Task join error: out of memory") := by
  rfl

/-- C2 (amended with the join-success proviso forced by
`ai_loop_tool_results_counterexample`): in an agent-loop turn whose stop
reason is `tool_use` and whose finalized assistant message contains
`ToolUse` blocks, when every dispatched task joins successfully the turn
appends, after the assistant message, exactly one user-role message whose
content is one `ToolResult` block per `ToolUse` block, in the same
positional order, each echoing the id of the corresponding `ToolUse`. -/
theorem ai_loop_tool_results_in_order (parse : String → Option Json)
    (messages : List Message) (events : List StreamEvent)
    (join_results : List (Except String (Except String String)))
    (hstop : (run_stream parse initState events).stop_reason = some STOP_REASON_TOOL_USE)
    (htu : tool_uses_of (run_stream parse initState events).assistant_content ≠ [])
    (hlen : join_results.length
      = (tool_uses_of (run_stream parse initState events).assistant_content).length)
    (hok : ∀ r ∈ join_results, r.isOk = true) :
    ∃ blocks,
      ai_loop_iter parse messages events join_results
        = (messages
            ++ [⟨"assistant", (run_stream parse initState events).assistant_content⟩,
                ⟨"user", blocks⟩], .again) ∧
      blocks.length
        = (tool_uses_of (run_stream parse initState events).assistant_content).length ∧
      ∀ k, k < (tool_uses_of (run_stream parse initState events).assistant_content).length →
        ∃ c e, blocks.getD k (.text "")
          = .toolResult
              ((tool_uses_of (run_stream parse initState events).assistant_content).getD k
                ("", "", Json.null)).1 c e := by
  set st := run_stream parse initState events with hst
  set tu := tool_uses_of st.assistant_content with htudef
  have hc1 : tu.isEmpty = false := by
    cases h : tu with
    | nil => exact absurd h htu
    | cons a l => rfl
  have hc2 : (st.stop_reason != some STOP_REASON_TOOL_USE) = false := by
    rw [hstop]; simp
  have hzip_ok : ∀ p ∈ tu.zip join_results, p.2.isOk = true :=
    fun p hp => hok p.2 (List.of_mem_zip hp).2
  obtain ⟨blocks, hcol, hblen, hbidx⟩ :=
    collect_tool_results_ok (tu.zip join_results) hzip_ok
  have hzlen : (tu.zip join_results).length = tu.length := by
    simp [List.length_zip, hlen]
  refine ⟨blocks, ?_, by omega, ?_⟩
  · simp only [ai_loop_iter, ← hst, ← htudef, hc1, hc2, Bool.or_self, Bool.false_or,
      if_false, hcol, user_message_with_tool_results, List.append_assoc, List.cons_append,
      List.nil_append]
    norm_num
  · intro k hk
    obtain ⟨c, e, hce⟩ := hbidx k (by omega)
    refine ⟨c, e, ?_⟩
    rw [hce, zip_getD ("", "", Json.null) (.ok (.ok "")) tu join_results k hk (by omega)]

/-- Witness for `ai_loop_tool_results_in_order`: a turn with one `ToolUse`
block and a successful join appends a user message with the matching
`ToolResult`. -/
theorem ai_loop_tool_results_in_order_witness :
    ∃ blocks,
      ai_loop_iter (fun _ => none) []
        [.contentBlockStart 0 (.toolUse "t1" "shell" (Json.obj [])),
         .contentBlockStop 0, .messageDelta (some "tool_use"), .messageStop]
        [.ok (.ok "out")]
      = ([⟨"assistant",
            (run_stream (fun _ => none) initState
              [.contentBlockStart 0 (.toolUse "t1" "shell" (Json.obj [])),
               .contentBlockStop 0, .messageDelta (some "tool_use"),
               .messageStop]).assistant_content⟩,
          ⟨"user", blocks⟩], .again) ∧
      blocks.length = (tool_uses_of (run_stream (fun _ => none) initState
        [.contentBlockStart 0 (.toolUse "t1" "shell" (Json.obj [])),
         .contentBlockStop 0, .messageDelta (some "tool_use"),
         .messageStop]).assistant_content).length ∧
      ∀ k, k < (tool_uses_of (run_stream (fun _ => none) initState
        [.contentBlockStart 0 (.toolUse "t1" "shell" (Json.obj [])),
         .contentBlockStop 0, .messageDelta (some "tool_use"),
         .messageStop]).assistant_content).length →
        ∃ c e, blocks.getD k (.text "")
          = .toolResult ((tool_uses_of (run_stream (fun _ => none) initState
              [.contentBlockStart 0 (.toolUse "t1" "shell" (Json.obj [])),
               .contentBlockStop 0, .messageDelta (some "tool_use"),
               .messageStop]).assistant_content).getD k ("", "", Json.null)).1 c e := by
  have h := ai_loop_tool_results_in_order (fun _ => none) []
    [.contentBlockStart 0 (.toolUse "t1" "shell" (Json.obj [])),
     .contentBlockStop 0, .messageDelta (some "tool_use"), .messageStop]
    [.ok (.ok "out")] rfl
    (by intro hnil; exact absurd (congrArg List.length hnil) (by decide))
    (by decide) (by decide)
  simpa using h

/-- C3 counterexample: a turn with one `ToolUse` block whose executor task's
join fails (panic / cancellation) does NOT surface an error `ToolResult`:
`ai_loop` propagates a `Task join error` and the history ends with the
assistant `ToolUse` message followed by no tool-results user message at
all. -/
theorem ai_loop_join_error_counterexample :
    ai_loop_iter (fun _ => none) []
      [.contentBlockStart 0 (.toolUse "t1" "shell" (Json.obj [])),
       .contentBlockStop 0, .messageDelta (some "tool_use"), .messageStop]
      [.error "task cancelled"]
    = ([⟨"assistant", [.toolUse "t1" "shell" (Json.obj [])]⟩],
       .errored "Task join error: task cancelled") := by
  rfl

/-- C3 (amended): a dispatched executor task whose join fails (panic or
cancellation) is not converted into an error `ToolResult`; instead the whole
turn aborts with a `Task join error`, leaving the assistant `ToolUse`
message as the last message of the history, with no tool-results user
message appended. -/
theorem ai_loop_join_error_propagates (parse : String → Option Json)
    (messages : List Message) (events : List StreamEvent)
    (join_results : List (Except String (Except String String)))
    (hstop : (run_stream parse initState events).stop_reason = some STOP_REASON_TOOL_USE)
    (htu : tool_uses_of (run_stream parse initState events).assistant_content ≠ [])
    (hlen : join_results.length
      = (tool_uses_of (run_stream parse initState events).assistant_content).length)
    (hbad : ∃ r ∈ join_results, r.isOk = false) :
    ∃ e, ai_loop_iter parse messages events join_results
      = (messages
          ++ [⟨"assistant", (run_stream parse initState events).assistant_content⟩],
         .errored e) := by
  set st := run_stream parse initState events with hst
  set tu := tool_uses_of st.assistant_content with htudef
  have hc1 : tu.isEmpty = false := by
    cases h : tu with
    | nil => exact absurd h htu
    | cons a l => rfl
  have hc2 : (st.stop_reason != some STOP_REASON_TOOL_USE) = false := by
    rw [hstop]; simp
  obtain ⟨r, hr, hbadr⟩ := hbad
  obtain ⟨x, hx⟩ := exists_mem_zip_of_mem_right tu join_results r hr hlen
  obtain ⟨e, he⟩ := collect_tool_results_error (tu.zip join_results) ⟨(x, r), hx, hbadr⟩
  refine ⟨e, ?_⟩
  simp only [ai_loop_iter, ← hst, ← htudef, hc1, hc2, Bool.or_self, Bool.false_or,
    if_false, he]
  norm_num

/-- Witness for `ai_loop_join_error_propagates`: with one `ToolUse` block and
a failed join, the turn errors and only the assistant message is appended. -/
theorem ai_loop_join_error_propagates_witness :
    ∃ e, ai_loop_iter (fun _ => none) []
      [.contentBlockStart 0 (.toolUse "t2" "shell" (Json.obj [])),
       .contentBlockStop 0, .messageDelta (some "tool_use"), .messageStop]
      [.error "panicked"]
    = ([⟨"assistant",
          (run_stream (fun _ => none) initState
            [.contentBlockStart 0 (.toolUse "t2" "shell" (Json.obj [])),
             .contentBlockStop 0, .messageDelta (some "tool_use"),
             .messageStop]).assistant_content⟩],
       .errored e) := by
  have h := ai_loop_join_error_propagates (fun _ => none) []
    [.contentBlockStart 0 (.toolUse "t2" "shell" (Json.obj [])),
     .contentBlockStop 0, .messageDelta (some "tool_use"), .messageStop]
    [.error "panicked"] rfl
    (by intro hnil; exact absurd (congrArg List.length hnil) (by decide))
    (by decide) ⟨.error "panicked", List.mem_singleton.mpr rfl, rfl⟩
  simpa using h

end TurnInvariant

section SeekSequence

open ApplyPatch

/-- Comparator used by fuzzy-match level `k` of `seek_sequence` (levels 0-3:
exact, trim-end, trim, normalise). -/
def levelCmp : Nat → (String → String → Bool)
  | 0 => cmpExact
  | 1 => cmpTrimEnd
  | 2 => cmpTrim
  | _ => cmpNorm

/-- Position `i` is a level-`k` match for `pattern` in `lines` within the
window scanned from `ss`: it is at or after the search start, the pattern
fits, and every pattern line matches under the level's comparator. -/
def levelMatch (lines pattern : List String) (ss k i : Nat) : Prop :=
  ss ≤ i ∧ i + pattern.length ≤ lines.length ∧
    matchesAt (levelCmp k) lines pattern i = true

instance (lines pattern : List String) (ss k i : Nat) :
    Decidable (levelMatch lines pattern ss k i) := by
  unfold levelMatch; infer_instance

/-- A successful scan returns the first matching position at or after its
starting point, within its fuel window. -/
theorem scanFrom_some (cmp : String → String → Bool) (lines pattern : List String) :
    ∀ fuel i r, scanFrom cmp lines pattern i fuel = some r →
      matchesAt cmp lines pattern r = true ∧ i ≤ r ∧ r < i + fuel ∧
      ∀ j, i ≤ j → j < r → matchesAt cmp lines pattern j = false
  | 0, i, r, h => by simp [scanFrom] at h
  | fuel + 1, i, r, h => by
    by_cases hm : matchesAt cmp lines pattern i = true
    · simp only [scanFrom, if_pos hm, Option.some.injEq] at h
      subst h
      exact ⟨hm, Nat.le_refl _, by omega, fun j h1 h2 => absurd h1 (by omega)⟩
    · simp only [scanFrom, if_neg hm] at h
      obtain ⟨hmr, hle, hlt, hmin⟩ := scanFrom_some cmp lines pattern fuel (i + 1) r h
      refine ⟨hmr, by omega, by omega, ?_⟩
      intro j h1 h2
      rcases Nat.eq_or_lt_of_le h1 with h1 | h1
      · subst h1
        exact Bool.eq_false_iff.mpr hm
      · exact hmin j h1 h2

/-- A failed scan means no position in its fuel window matches. -/
theorem scanFrom_none (cmp : String → String → Bool) (lines pattern : List String) :
    ∀ fuel i, scanFrom cmp lines pattern i fuel = none →
      ∀ j, i ≤ j → j < i + fuel → matchesAt cmp lines pattern j = false
  | 0, i, h, j, h1, h2 => absurd h2 (by omega)
  | fuel + 1, i, h, j, h1, h2 => by
    by_cases hm : matchesAt cmp lines pattern i = true
    · simp [scanFrom, if_pos hm] at h
    · simp only [scanFrom, if_neg hm] at h
      rcases Nat.eq_or_lt_of_le h1 with h1 | h1
      · subst h1
        exact Bool.eq_false_iff.mpr hm
      · exact scanFrom_none cmp lines pattern fuel (i + 1) h j h1 (by omega)

/-- C1 (amended with the empty-pattern proviso settled by
`seek_sequence_empty_eof_counterexample`): for a non-empty pattern, if
`seek_sequence` returns `Some i` then some level `k < 4` matches the pattern
against `lines[i..i+|pattern|]`, `i` lies in the scanned window starting at
the search start (`start`, or `len - pattern_len` when `eof` is set), no
position of the window matches at any earlier level, and no earlier position
of the window matches at level `k` — i.e. `i` is the earliest window
position matching at the first level that has any match; and `seek_sequence`
returns `None` only if all four levels fail everywhere in the window. -/
theorem seek_sequence_four_level (lines pattern : List String) (start ss : Nat) (eof : Bool)
    (hne : pattern ≠ [])
    (hss : ss = if eof ∧ pattern.length ≤ lines.length
      then lines.length - pattern.length else start) :
    (∀ i, seek_sequence lines pattern start eof = some i →
      ∃ k, k < 4 ∧ levelMatch lines pattern ss k i ∧
        (∀ k', k' < k → ∀ i', ¬ levelMatch lines pattern ss k' i') ∧
        (∀ i', i' < i → ¬ levelMatch lines pattern ss k i')) ∧
    (seek_sequence lines pattern start eof = none →
      ∀ k, k < 4 → ∀ i, ¬ levelMatch lines pattern ss k i) := by
  have hpe : pattern.isEmpty = false := by
    cases h : pattern with
    | nil => exact absurd h hne
    | cons a l => rfl
  by_cases hlen : lines.length < pattern.length
  · have hseek : seek_sequence lines pattern start eof = none := by
      unfold seek_sequence
      simp [hpe, hlen]
    refine ⟨fun i hi => absurd (hseek ▸ hi) (by simp), fun _ k _ i hl => ?_⟩
    obtain ⟨_, hw, _⟩ := hl
    omega
  · have hplen : pattern.length ≤ lines.length := by omega
    have hsearch : (if eof && decide (pattern.length ≤ lines.length)
        then lines.length - pattern.length else start) = ss := by
      rw [hss]
      by_cases he : eof <;> simp [he, hplen]
    set fuel := (lines.length - pattern.length + 1) - ss with hfuel
    have hwin' : ∀ i, (i + pattern.length ≤ lines.length ∧ ss ≤ i)
        ↔ (ss ≤ i ∧ i < ss + fuel) := by
      intro i; rw [hfuel]; omega
    have hseek : seek_sequence lines pattern start eof
        = (match scanFrom cmpExact lines pattern ss fuel with
           | some i => some i
           | none =>
             match scanFrom cmpTrimEnd lines pattern ss fuel with
             | some i => some i
             | none =>
               match scanFrom cmpTrim lines pattern ss fuel with
               | some i => some i
               | none => scanFrom cmpNorm lines pattern ss fuel) := by
      unfold seek_sequence
      rw [if_neg (by simp [hpe]), if_neg (by omega)]
      rw [hsearch, hfuel]
    have noLvl : ∀ (cmp : String → String → Bool) (k : Nat), levelCmp k = cmp →
        scanFrom cmp lines pattern ss fuel = none →
        ∀ i', ¬ levelMatch lines pattern ss k i' := by
      intro cmp k hk hscan i' hl
      obtain ⟨h1, h2, h3⟩ := hl
      have hfalse := scanFrom_none cmp lines pattern fuel ss hscan i' h1
        ((hwin' i').mp ⟨h2, h1⟩).2
      rw [hk] at h3
      rw [h3] at hfalse
      cases hfalse
    have someLvl : ∀ (cmp : String → String → Bool) (k i1 : Nat), levelCmp k = cmp →
        scanFrom cmp lines pattern ss fuel = some i1 →
        levelMatch lines pattern ss k i1 ∧
        (∀ i', i' < i1 → ¬ levelMatch lines pattern ss k i') := by
      intro cmp k i1 hk hscan
      obtain ⟨hm, hle, hlt, hmin⟩ := scanFrom_some cmp lines pattern fuel ss i1 hscan
      refine ⟨⟨hle, ((hwin' i1).mpr ⟨hle, hlt⟩).1, by rw [hk]; exact hm⟩, ?_⟩
      intro i' hi' hl
      obtain ⟨h1, h2, h3⟩ := hl
      have hfalse := hmin i' h1 hi'
      rw [hk] at h3
      rw [h3] at hfalse
      cases hfalse
    cases h1 : scanFrom cmpExact lines pattern ss fuel with
    | some i1 =>
      have hval : seek_sequence lines pattern start eof = some i1 := by
        rw [hseek, h1]
      refine ⟨fun i hi => ?_, fun hnone => absurd (hval ▸ hnone) (by simp)⟩
      obtain rfl : i1 = i := Option.some.inj ((hval ▸ hi).symm).symm
      obtain ⟨hlv, hmin⟩ := someLvl cmpExact 0 i1 rfl h1
      exact ⟨0, by omega, hlv, fun k' hk' => absurd hk' (by omega), hmin⟩
    | none =>
      cases h2 : scanFrom cmpTrimEnd lines pattern ss fuel with
      | some i2 =>
        have hval : seek_sequence lines pattern start eof = some i2 := by
          rw [hseek, h1, h2]
        refine ⟨fun i hi => ?_, fun hnone => absurd (hval ▸ hnone) (by simp)⟩
        obtain rfl : i2 = i := Option.some.inj ((hval ▸ hi).symm).symm
        obtain ⟨hlv, hmin⟩ := someLvl cmpTrimEnd 1 i2 rfl h2
        refine ⟨1, by omega, hlv, ?_, hmin⟩
        intro k' hk'
        interval_cases k'
        exact noLvl cmpExact 0 rfl h1
      | none =>
        cases h3 : scanFrom cmpTrim lines pattern ss fuel with
        | some i3 =>
          have hval : seek_sequence lines pattern start eof = some i3 := by
            rw [hseek, h1, h2, h3]
          refine ⟨fun i hi => ?_, fun hnone => absurd (hval ▸ hnone) (by simp)⟩
          obtain rfl : i3 = i := Option.some.inj ((hval ▸ hi).symm).symm
          obtain ⟨hlv, hmin⟩ := someLvl cmpTrim 2 i3 rfl h3
          refine ⟨2, by omega, hlv, ?_, hmin⟩
          intro k' hk'
          interval_cases k'
          · exact noLvl cmpExact 0 rfl h1
          · exact noLvl cmpTrimEnd 1 rfl h2
        | none =>
          cases h4 : scanFrom cmpNorm lines pattern ss fuel with
          | some i4 =>
            have hval : seek_sequence lines pattern start eof = some i4 := by
              rw [hseek, h1, h2, h3, h4]
            refine ⟨fun i hi => ?_, fun hnone => absurd (hval ▸ hnone) (by simp)⟩
            obtain rfl : i4 = i := Option.some.inj ((hval ▸ hi).symm).symm
            obtain ⟨hlv, hmin⟩ := someLvl cmpNorm 3 i4 rfl h4
            refine ⟨3, by omega, hlv, ?_, hmin⟩
            intro k' hk'
            interval_cases k'
            · exact noLvl cmpExact 0 rfl h1
            · exact noLvl cmpTrimEnd 1 rfl h2
            · exact noLvl cmpTrim 2 rfl h3
          | none =>
            have hval : seek_sequence lines pattern start eof = none := by
              rw [hseek, h1, h2, h3, h4]
            refine ⟨fun i hi => absurd (hval ▸ hi) (by simp), fun _ k hk i => ?_⟩
            interval_cases k
            · exact noLvl cmpExact 0 rfl h1 i
            · exact noLvl cmpTrimEnd 1 rfl h2 i
            · exact noLvl cmpTrim 2 rfl h3 i
            · exact noLvl cmpNorm 3 rfl h4 i

/-- C1 counterexample: with an empty pattern and `eof` set, `seek_sequence`
returns `Some(start)` before computing the eof search start, so the returned
index 0 lies strictly below the search start `len - pattern_len = 1` the
claim requires — the claim's "earliest position at or after the search
start" clause fails for empty patterns. -/
theorem seek_sequence_empty_eof_counterexample :
    ApplyPatch.seek_sequence ["a"] [] 0 true = some 0 ∧
    ¬ ((["a"] : List String).length - ([] : List String).length ≤ 0) := by
  decide

/-- Witness for `seek_sequence_four_level`: pattern `["bar"]` in
`["foo", "bar  ", "baz"]` is found at index 1 by level 1 (`trim_end`), with
level 0 matching nowhere and no earlier level-1 position. -/
theorem seek_sequence_four_level_witness :
    ∃ k, k < 4 ∧ levelMatch ["foo", "bar  ", "baz"] ["bar"] 0 k 1 ∧
      (∀ k', k' < k → ∀ i', ¬ levelMatch ["foo", "bar  ", "baz"] ["bar"] 0 k' i') ∧
      (∀ i', i' < 1 → ¬ levelMatch ["foo", "bar  ", "baz"] ["bar"] 0 k i') :=
  (seek_sequence_four_level ["foo", "bar  ", "baz"] ["bar"] 0 0 false
    (by decide) (by decide)).1 1 (by decide)

end SeekSequence
